import Mathlib

/-!
# Verification of the txvmbcd block/snapshot store and query path

Shallow embedding of the `txvmbcd` blockchain server (Go).  The repository
contains two variants of the program:

* a filesystem-backed store (`store.go`: `blockStore` over a sharded
  directory tree) with an HTTP `get` handler whose `want` variable defaults
  to `0`, and
* a bbolt-backed store (embedded key-value database, second `blockStore`)
  with a `get` handler whose `want` variable defaults to `1`.

Go byte strings are modelled as `List Nat` (byte values); `uint64` values as
`Nat` together with explicit `< 2^64` hypotheses where the width matters.
External collaborators (the txvm `bc.Block` / `state.Snapshot` serializers)
are modelled as parameters: store operations take the decoder as an explicit
function argument.
-/

/-- Go byte strings (e.g. file names, serialized blocks) as lists of byte
values. -/
abbrev Bytes := List Nat

/-! ## Decimal rendering and parsing (`fmt.Sprintf "%d"`, `strconv`) -/

/-- Little-endian decimal digits (as ASCII codes) of `n`, with explicit fuel.
The fuel bounds the number of digits; `txvmbcd` only renders `uint64` (and
small non-negative `int`) values, which have at most 20 digits, so the fuel
is never exhausted in any reachable call. -/
def goDigitsLE : Nat → Nat → Bytes
  | 0, n => [48 + n % 10]
  | f + 1, n => if n < 10 then [48 + n] else (48 + n % 10) :: goDigitsLE f (n / 10)

/-- `fmt.Sprintf "%d" n` for a non-negative integer: most-significant digit
first. -/
def goItoa (n : Nat) : Bytes := (goDigitsLE 25 n).reverse

/-- ASCII decimal digit test. -/
def isDigitByte (c : Nat) : Bool := 48 ≤ c && c ≤ 57

/-- Value of an all-digit byte string read most-significant-first. -/
def decFold (s : Bytes) : Nat := s.foldl (fun a c => 10 * a + (c - 48)) 0

/-- `strconv.ParseUint(s, 10, 64)`: succeeds on a nonempty all-digit string
whose value fits in a `uint64`. -/
def goParseUint (s : Bytes) : Option Nat :=
  if s = [] then none
  else if s.all isDigitByte then
    if decFold s < 2 ^ 64 then some (decFold s) else none
  else none

/-- `strconv.Atoi` (= `ParseInt` base 10, 64-bit): optional sign followed by
a nonempty digit string, within `int64` range. -/
def goAtoi (s : Bytes) : Option Int :=
  match s with
  | 45 :: rest =>
    if rest ≠ [] ∧ rest.all isDigitByte ∧ decFold rest ≤ 2 ^ 63 then
      some (-(decFold rest : Int))
    else none
  | 43 :: rest =>
    if rest ≠ [] ∧ rest.all isDigitByte ∧ decFold rest < 2 ^ 63 then
      some (decFold rest : Int)
    else none
  | _ =>
    if s ≠ [] ∧ s.all isDigitByte ∧ decFold s < 2 ^ 63 then
      some (decFold s : Int)
    else none

/-! ## Varints (`encoding/binary` `PutUvarint` / `Uvarint`) -/

/-- `binary.PutUvarint`, little-endian base-128 with continuation bits, with
explicit fuel.  A `uint64` needs at most 10 bytes (`MaxVarintLen64`), i.e. at
most 9 continuation steps, so fuel 9 is never exhausted for `uint64`
values. -/
def putUvarintGo : Nat → Nat → Bytes
  | 0, n => [n]
  | f + 1, n => if n < 128 then [n] else (n % 128 + 128) :: putUvarintGo f (n / 128)

/-- `binary.PutUvarint` for a `uint64` value. -/
def putUvarint (n : Nat) : Bytes := putUvarintGo 9 n

/-- Decoding loop of `binary.Uvarint`: accumulated value `x`, shift `s`,
byte index `i`.  Returns `none` where Go reports a truncated (`n = 0`) or
overflowing (`n < 0`) varint. -/
def uvarintAux : Bytes → Nat → Nat → Nat → Option (Nat × Nat)
  | [], _, _, _ => none
  | b :: rest, x, s, i =>
    if b < 128 then
      if 9 < i ∨ (i = 9 ∧ 1 < b) then none
      else some (x + b * 2 ^ s, i + 1)
    else uvarintAux rest (x + b % 128 * 2 ^ s) (s + 7) (i + 1)

/-- `binary.Uvarint`: value and number of bytes read. -/
def uvarint (s : Bytes) : Option (Nat × Nat) := uvarintAux s 0 0 0

/-! ## Roundtrip lemmas for the byte-level codecs -/

theorem goDigitsLE_digits (f n : Nat) : ∀ c ∈ goDigitsLE f n, 48 ≤ c ∧ c ≤ 57 := by
  induction f generalizing n with
  | zero =>
    intro c hc
    simp only [goDigitsLE, List.mem_singleton] at hc
    subst hc
    constructor
    · omega
    · have := Nat.mod_lt n (y := 10) (by omega)
      omega
  | succ f ih =>
    intro c hc
    simp only [goDigitsLE] at hc
    split at hc
    · simp only [List.mem_singleton] at hc
      omega
    · rcases List.mem_cons.mp hc with h | h
      · subst h
        have := Nat.mod_lt n (y := 10) (by omega)
        omega
      · exact ih _ _ h

/-- Little-endian digit value. -/
def decValLE : Bytes → Nat
  | [] => 0
  | c :: r => (c - 48) + 10 * decValLE r

theorem decValLE_goDigitsLE (f : Nat) : ∀ n, n < 10 ^ (f + 1) →
    decValLE (goDigitsLE f n) = n := by
  induction f with
  | zero =>
    intro n hn
    simp only [goDigitsLE, decValLE]
    have : n % 10 = n := Nat.mod_eq_of_lt (by simpa using hn)
    omega
  | succ f ih =>
    intro n hn
    simp only [goDigitsLE]
    split
    · simp only [decValLE]
      omega
    · simp only [decValLE]
      have hdiv : n / 10 < 10 ^ (f + 1) := by
        rw [Nat.div_lt_iff_lt_mul (by omega)]
        calc n < 10 ^ (f + 1 + 1) := hn
        _ = 10 ^ (f + 1) * 10 := by ring
      rw [ih _ hdiv]
      omega

theorem decFold_reverse (l : Bytes) : ∀ a : Nat,
    List.foldl (fun a c => 10 * a + (c - 48)) a l.reverse =
      a * 10 ^ l.length + decValLE l := by
  induction l with
  | nil => intro a; simp [decValLE]
  | cons c r ih =>
    intro a
    simp only [List.reverse_cons, List.foldl_append, List.foldl_cons, List.foldl_nil, ih,
      decValLE, List.length_cons]
    ring

theorem decFold_goItoa (n : Nat) (hn : n < 10 ^ 26) : decFold (goItoa n) = n := by
  unfold decFold goItoa
  rw [decFold_reverse]
  simpa using decValLE_goDigitsLE 25 n hn

theorem goDigitsLE_ne_nil (f n : Nat) : goDigitsLE f n ≠ [] := by
  cases f with
  | zero => simp [goDigitsLE]
  | succ f =>
    simp only [goDigitsLE]
    split <;> simp

theorem goItoa_all_digits (n : Nat) : (goItoa n).all isDigitByte = true := by
  rw [List.all_eq_true]
  intro c hc
  rw [goItoa, List.mem_reverse] at hc
  have := goDigitsLE_digits 25 n c hc
  simp only [isDigitByte, Bool.and_eq_true, decide_eq_true_eq]
  omega

theorem goParseUint_goItoa (n : Nat) (hn : n < 2 ^ 64) :
    goParseUint (goItoa n) = some n := by
  have hne : goItoa n ≠ [] := by
    simp only [goItoa, ne_eq, List.reverse_eq_nil_iff]
    exact goDigitsLE_ne_nil 25 n
  have hbig : n < 10 ^ 26 := lt_of_lt_of_le hn (by norm_num)
  simp only [goParseUint, hne, if_false, goItoa_all_digits, if_true, decFold_goItoa n hbig]
  rw [if_pos hn]

theorem goItoa_injOn {m n : Nat} (hm : m < 10 ^ 26) (hn : n < 10 ^ 26)
    (h : goItoa m = goItoa n) : m = n := by
  have := decFold_goItoa m hm
  have := decFold_goItoa n hn
  rw [h] at *
  omega

theorem dash_not_mem_goItoa (n : Nat) : 45 ∉ goItoa n := by
  intro hmem
  rw [goItoa, List.mem_reverse] at hmem
  have := goDigitsLE_digits 25 n 45 hmem
  omega

theorem uvarintAux_putUvarintGo (f : Nat) : ∀ n x s i, i + f = 9 →
    n < 2 ^ (64 - 7 * i) →
    uvarintAux (putUvarintGo f n) x s i = some (x + n * 2 ^ s, i + (putUvarintGo f n).length) := by
  induction f with
  | zero =>
    intro n x s i hi hn
    have hi9 : i = 9 := by omega
    subst hi9
    have hn2 : n < 2 := by simpa using hn
    simp only [putUvarintGo, uvarintAux, List.length_singleton]
    rw [if_pos (by omega), if_neg (by omega)]
  | succ f ih =>
    intro n x s i hi hn
    have hile : 7 * i ≤ 63 := by omega
    simp only [putUvarintGo]
    split
    · next hlt =>
      simp only [uvarintAux, List.length_singleton]
      rw [if_pos hlt]
      have hi9 : i ≤ 9 := by omega
      have : ¬(9 < i ∨ (i = 9 ∧ 1 < n)) := by
        rintro (h | ⟨h9, hb⟩)
        · omega
        · subst h9
          have : n < 2 ^ (64 - 63) := by
            have : 64 - 7 * 9 = 1 := by norm_num
            rwa [this] at hn
          omega
      rw [if_neg this]
    · next hge =>
      push_neg at hge
      simp only [uvarintAux, List.length_cons]
      rw [if_neg (by omega)]
      have hmod : (n % 128 + 128) % 128 = n % 128 := by omega
      have h7 : 7 * i ≤ 56 := by
        by_contra hc
        push_neg at hc
        have h63 : 64 - 7 * i ≤ 7 := by omega
        have : (2 : Nat) ^ (64 - 7 * i) ≤ 2 ^ 7 := Nat.pow_le_pow_right (by omega) h63
        omega
      have hsplit : 64 - 7 * i = (64 - 7 * (i + 1)) + 7 := by omega
      have hdiv : n / 128 < 2 ^ (64 - 7 * (i + 1)) := by
        rw [Nat.div_lt_iff_lt_mul (by omega)]
        calc n < 2 ^ (64 - 7 * i) := hn
        _ = 2 ^ (64 - 7 * (i + 1)) * 2 ^ 7 := by rw [hsplit, pow_add]
        _ = 2 ^ (64 - 7 * (i + 1)) * 128 := by norm_num
      rw [hmod, ih (n / 128) (x + n % 128 * 2 ^ s) (s + 7) (i + 1) (by omega) hdiv]
      have h128 : (2 : Nat) ^ 7 = 128 := by norm_num
      have hval : x + n % 128 * 2 ^ s + n / 128 * 2 ^ (s + 7) = x + n * 2 ^ s := by
        calc x + n % 128 * 2 ^ s + n / 128 * 2 ^ (s + 7)
            = x + n % 128 * 2 ^ s + n / 128 * (2 ^ s * 2 ^ 7) := by rw [pow_add]
        _ = x + (n % 128 + 128 * (n / 128)) * 2 ^ s := by rw [h128]; ring
        _ = x + n * 2 ^ s := by rw [Nat.mod_add_div]
      rw [hval, show i + 1 + (putUvarintGo f (n / 128)).length =
        i + ((putUvarintGo f (n / 128)).length + 1) from by omega]

theorem uvarint_putUvarint (n : Nat) (hn : n < 2 ^ 64) :
    uvarint (putUvarint n) = some (n, (putUvarint n).length) := by
  have := uvarintAux_putUvarintGo 9 n 0 0 0 (by omega) (by simpa using hn)
  simpa [uvarint, putUvarint] using this

/-! ## Data model

`bc.Block` and `state.Snapshot` are defined in the external txvm module; the
store code uses only `b.Height`/`b.Bytes()` (resp. `s.Height()`/`s.Bytes()`)
and the external decoders `FromBytes`.  A block (snapshot) is therefore
modelled by the pair of its height and its serialized bytes, and decoders
are passed to the store operations as explicit function arguments. -/

/-- The view of `bc.Block` used by the stores: its `Height` field and its
serialized form `Bytes()`. -/
structure Block where
  height : Nat
  bits : Bytes
deriving DecidableEq, Repr

/-- The view of `state.Snapshot` used by the stores: its `Height()` and its
serialized form `Bytes()`. -/
structure Snap where
  height : Nat
  bits : Bytes
deriving DecidableEq, Repr

/-- `state.Empty()`: the empty sentinel snapshot (height 0). -/
def emptySnap : Snap := ⟨0, []⟩

/-- Error classes surfaced by store operations. -/
inductive SErr where
  /-- "conflicting ... block N already exists" -/
  | conflict
  /-- an `os.IsNotExist` error from reading a missing file -/
  | notFound
  /-- a deserialization (`FromBytes`, `Uvarint`) failure -/
  | parseErr
  /-- any other I/O or bucket error -/
  | other
deriving DecidableEq, Repr

/-- Result of a store operation: normal return, returned error, or a Go
runtime panic (nil-pointer dereference).  For a bbolt `Update`, an `err` or
`panic` outcome rolls the transaction back, so the database is unchanged. -/
inductive Res (α : Type) where
  | ok : α → Res α
  | err : SErr → Res α
  | panic : Res α
deriving DecidableEq, Repr

/-- The state after an operation: the new state on success, the previous
state otherwise (errors roll back / write nothing). -/
def Res.stateD {α : Type} : Res α → α → α
  | .ok a, _ => a
  | _, d => d

/-- Whether the operation returned normally. -/
def Res.isOk {α : Type} : Res α → Bool
  | .ok _ => true
  | _ => false

/-- First-match association-list lookup (bbolt bucket `Get`, directory
lookup). -/
def alookup {κ β : Type} [DecidableEq κ] (k : κ) : List (κ × β) → Option β
  | [] => none
  | (k', v) :: rest => if k = k' then some v else alookup k rest

/-- Association-list insert-or-replace (bbolt bucket `Put`, file
overwrite). -/
def aupsert {κ β : Type} [DecidableEq κ] (k : κ) (v : β) : List (κ × β) → List (κ × β)
  | [] => [(k, v)]
  | (k', v') :: rest => if k = k' then (k, v) :: rest else (k', v') :: aupsert k v rest

/-! ## Filesystem backend (`store.go`) -/

/-- `blockFilename`: shard directory name (`"<n*1000>-<n*1000+999>"`) and
file name (`"<height>"`) for a block height.  `height` is a `uint64`; the
`+ 999` is `uint64` addition, hence the `% 2 ^ 64`. -/
def blockFilename (height : Nat) : Bytes × Bytes :=
  let n := height / 1000
  (goItoa (n * 1000) ++ 45 :: goItoa ((n * 1000 + 999) % 2 ^ 64), goItoa height)

/-- State of the filesystem `blockStore`: the files under the root directory
(path relative to the root, split as (directory, file name), with `[]` as
the directory of root-level files such as `"snapshot"`) and the in-memory
mutex-guarded `height` field.  Directories exist exactly where files exist;
the `heights` channel is not part of persistent state. -/
structure FsStore where
  files : List ((Bytes × Bytes) × Bytes)
  height : Nat
deriving DecidableEq, Repr

/-- Name of the root-level snapshot file. -/
def snapshotName : Bytes := [115, 110, 97, 112, 115, 104, 111, 116]

/-- The height-recovery scan in `newBlockStore` (`store.go`): find the
highest directory name parseable by `strconv.Atoi` (initial value `-1`),
then the highest file name within that directory parseable by
`strconv.ParseUint` (initial value `0`). -/
def scanHeight (files : List ((Bytes × Bytes) × Bytes)) : Nat :=
  let dirs := (files.map (fun e => e.1.1)).filter (fun d => d ≠ [])
  let highestDir : Int := dirs.foldl (fun acc d =>
    match goAtoi d with
    | some n => if n > acc then n else acc
    | none => acc) (-1)
  if 0 ≤ highestDir then
    let sub := goItoa highestDir.toNat
    let names := ((files.filter (fun e => e.1.1 = sub)).map (fun e => e.1.2))
    names.foldl (fun acc nm =>
      match goParseUint nm with
      | some n => if n > acc then n else acc
      | none => acc) 0
  else 0

/-- `newBlockStore` (`store.go`): open the root directory and recover the
height by scanning. -/
def fsNewBlockStore (files : List ((Bytes × Bytes) × Bytes)) : FsStore :=
  ⟨files, scanHeight files⟩

/-- `blockStore.Height` (`store.go`): return the cached in-memory height. -/
def fsHeight (st : FsStore) : Nat := st.height

/-- `blockStore.GetBlock` (`store.go`): read the block file; a missing file
is an `os.IsNotExist` error, undecodable bytes a parse error.  `bdec` is the
external `bc.Block.FromBytes`. -/
def fsGetBlock (bdec : Bytes → Option Block) (st : FsStore) (height : Nat) : Res Block :=
  match alookup (blockFilename height) st.files with
  | none => .err .notFound
  | some bits =>
    match bdec bits with
    | none => .err .parseErr
    | some b => .ok b

/-- `blockStore.SaveBlock` (`store.go`): create the block file with
`O_CREATE|O_EXCL`; if it already exists, compare the existing contents with
the new bytes — identical bytes are a no-op success, different bytes a
conflict error.  The in-memory `height` field is not touched. -/
def fsSaveBlock (b : Block) (st : FsStore) : Res FsStore :=
  match alookup (blockFilename b.height) st.files with
  | some got => if got = b.bits then .ok st else .err .conflict
  | none => .ok ⟨st.files ++ [(blockFilename b.height, b.bits)], st.height⟩

/-- `blockStore.LatestSnapshot` (`store.go`): read the root-level
`"snapshot"` file, returning `state.Empty()` if it does not exist.  `sdec`
is the external `state.Snapshot.FromBytes`. -/
def fsLatestSnapshot (sdec : Bytes → Option Snap) (st : FsStore) : Res Snap :=
  match alookup (([] : Bytes), snapshotName) st.files with
  | none => .ok emptySnap
  | some bits =>
    match sdec bits with
    | none => .err .parseErr
    | some s => .ok s

/-- `blockStore.SaveSnapshot` (`store.go`): unconditionally overwrite the
root-level `"snapshot"` file with the snapshot's bytes. -/
def fsSaveSnapshot (s : Snap) (st : FsStore) : Res FsStore :=
  .ok ⟨aupsert (([] : Bytes), snapshotName) s.bits st.files, st.height⟩

/-! ## Embedded bbolt backend (second `store.go` variant) -/

/-- A per-height bucket inside the `"blocks"` bucket: the values of its
`"block"` and `"snapshot"` keys (`[]` = key absent, matching bbolt's `Get`
returning `nil` and the code's `len(...) > 0` checks). -/
structure BEntry where
  block : Bytes
  snapshot : Bytes
deriving DecidableEq, Repr

/-- The `"root"` bucket of the bbolt database: the raw bytes of the
`"height"` key, the `"blocks"` sub-bucket (`none` = bucket absent; an
association list from varint-encoded heights to per-height buckets), and the
raw bytes of the `"latest_snapshot"` key. -/
structure BoltRoot where
  height : Bytes
  blocks : Option (List (Bytes × BEntry))
  latest : Bytes
deriving DecidableEq, Repr

/-- `blockStore.getHeight`: decode the `"height"` key with
`binary.Uvarint`; fewer than one byte consumed is a "cannot parse height"
error. -/
def boltGetHeight (r : BoltRoot) : Res Nat :=
  match uvarint r.height with
  | some (h, _) => .ok h
  | none => .err .parseErr

/-- `blockStore.Height` (bbolt variant): `getHeight` inside a read
transaction. -/
def boltHeight (r : BoltRoot) : Res Nat := boltGetHeight r

/-- `newBlockStore` (bbolt variant): inside one `Update` transaction, create
the `"root"` bucket if needed; if no height is stored, create the
`"blocks"` bucket (`CreateBucket` fails if it already exists), store the
genesis block (height 1, serialized as `genesis`, produced by the external
`protocol.NewInitialBlock`) and the height pointer `1`.  `db = none` models
an empty database with no `"root"` bucket. -/
def boltNewBlockStore (genesis : Bytes) (db : Option BoltRoot) : Res BoltRoot :=
  let root := db.getD ⟨[], none, []⟩
  if root.height = [] then
    match root.blocks with
    | some _ => .err .other
    | none => .ok ⟨putUvarint 1, some [(putUvarint 1, ⟨genesis, []⟩)], root.latest⟩
  else .ok root

/-- The database contents right after `newBlockStore` on an empty database:
genesis block at height 1, height pointer 1, no latest snapshot. -/
def boltInit (genesis : Bytes) : BoltRoot :=
  ⟨putUvarint 1, some [(putUvarint 1, ⟨genesis, []⟩)], []⟩

theorem boltNewBlockStore_empty (genesis : Bytes) :
    boltNewBlockStore genesis none = .ok (boltInit genesis) := rfl

/-- `blockStore.GetBlock` (bbolt variant): look up the per-height bucket and
decode its `"block"` value.  The code dereferences the bucket pointers
without nil checks (the `// xxx check` comments), so a missing `"blocks"`
bucket or a missing per-height bucket is a nil-pointer dereference panic,
not an error return. -/
def boltGetBlock (bdec : Bytes → Option Block) (r : BoltRoot) (height : Nat) : Res Block :=
  match r.blocks with
  | none => .panic
  | some blocks =>
    match alookup (putUvarint height) blocks with
    | none => .panic
    | some bu =>
      match bdec bu.block with
      | none => .err .parseErr
      | some b => .ok b

/-- `blockStore.LatestSnapshot` (bbolt variant): decode the
`"latest_snapshot"` key if nonempty, else return `state.Empty()`. -/
def boltLatestSnapshot (sdec : Bytes → Option Snap) (r : BoltRoot) : Res Snap :=
  if r.latest = [] then .ok emptySnap
  else
    match sdec r.latest with
    | none => .err .parseErr
    | some s => .ok s

/-- `blockStore.SaveBlock` (bbolt variant), one `Update` transaction: read
the height pointer; get-or-create the per-height bucket; if a nonempty
`"block"` value exists there, equal bytes are a no-op success and different
bytes a conflict error (rolling back); otherwise store the block and, if its
height exceeds the stored height pointer, advance the pointer. -/
def boltSaveBlock (r : BoltRoot) (b : Block) : Res BoltRoot :=
  match boltGetHeight r with
  | .err e => .err e
  | .panic => .panic
  | .ok h =>
    match r.blocks with
    | none => .panic
    | some blocks =>
      let key := putUvarint b.height
      let bu := (alookup key blocks).getD ⟨[], []⟩
      if bu.block ≠ [] then
        if b.bits = bu.block then .ok r else .err .conflict
      else
        let blocks' := aupsert key ⟨b.bits, bu.snapshot⟩ blocks
        if b.height > h then
          .ok ⟨putUvarint b.height, some blocks', r.latest⟩
        else
          .ok ⟨r.height, some blocks', r.latest⟩

/-- `blockStore.SaveSnapshot` (bbolt variant): a snapshot of height 0 is a
no-op success; otherwise, in one `Update` transaction, read the height
pointer (only its error matters), store the snapshot bytes under the
`"snapshot"` key of its per-height bucket, and overwrite the
`"latest_snapshot"` key unless the currently stored latest snapshot decodes
to a strictly greater height.  `sdec` is the external
`state.Snapshot.FromBytes` (composed with `Height()`). -/
def boltSaveSnapshot (sdec : Bytes → Option Snap) (s : Snap) (r : BoltRoot) : Res BoltRoot :=
  if s.height = 0 then .ok r
  else
    match boltGetHeight r with
    | .err e => .err e
    | .panic => .panic
    | .ok _ =>
      match r.blocks with
      | none => .panic
      | some blocks =>
        let key := putUvarint s.height
        let bu := (alookup key blocks).getD ⟨[], []⟩
        let blocks' := aupsert key ⟨bu.block, s.bits⟩ blocks
        if r.latest ≠ [] then
          match sdec r.latest with
          | none => .err .parseErr
          | some latest =>
            if latest.height > s.height then
              .ok ⟨r.height, some blocks', r.latest⟩
            else
              .ok ⟨r.height, some blocks', s.bits⟩
        else
          .ok ⟨r.height, some blocks', s.bits⟩

/-! ## The HTTP `get` handler -/

/-- Outcome of the height-resolution logic of the `get` handler: a `400` for
an unparsable `height` parameter, an immediate fetch of block `want`, or a
blocking wait on `chain.BlockWaiter want`. -/
inductive GetAction where
  | badRequest
  | immediate (want : Nat)
  | waitFor (want : Nat)
deriving DecidableEq, Repr

/-- The `get` handler's height resolution, parameterized by the initial
value of `want` (`0` in the filesystem variant of `main.go`, `1` in the
bbolt variant — the only difference between the two handlers): parse the
`height` query parameter if present (`[]` = absent), treat `0` as "the
current chain height", and wait only when the resolved height exceeds the
current height. -/
def getAction (dflt : Nat) (wantStr : Bytes) (height : Nat) : GetAction :=
  match (if wantStr = [] then some dflt else goParseUint wantStr) with
  | none => .badRequest
  | some w =>
    let want := if w = 0 then height else w
    if want > height then .waitFor want else .immediate want

/-! ## Sequences of operations -/

/-- Fold a sequence of `SaveBlock` calls over the filesystem store (failed
calls leave the state unchanged). -/
def fsRunBlocks (st : FsStore) (bs : List Block) : FsStore :=
  bs.foldl (fun st b => (fsSaveBlock b st).stateD st) st

/-- Fold a sequence of `SaveBlock` calls over the bbolt store (failed calls
roll back). -/
def boltRunBlocks (r : BoltRoot) (bs : List Block) : BoltRoot :=
  bs.foldl (fun r b => (boltSaveBlock r b).stateD r) r

/-- Fold a sequence of `SaveSnapshot` calls over the filesystem store. -/
def fsRunSnaps (st : FsStore) (ss : List Snap) : FsStore :=
  ss.foldl (fun st s => (fsSaveSnapshot s st).stateD st) st

/-- Fold a sequence of `SaveSnapshot` calls over the bbolt store. -/
def boltRunSnaps (sdec : Bytes → Option Snap) (r : BoltRoot) (ss : List Snap) : BoltRoot :=
  ss.foldl (fun r s => (boltSaveSnapshot sdec s r).stateD r) r

/-- Specification-side selection of the expected "latest" snapshot after a
sequence of `SaveSnapshot` calls: ignore height-0 snapshots; otherwise keep
the snapshot of maximum height, later calls winning ties. -/
def latestStep (acc : Option Snap) (s : Snap) : Option Snap :=
  if s.height = 0 then acc
  else
    match acc with
    | none => some s
    | some t => if t.height ≤ s.height then some s else some t

def latestSpec (ss : List Snap) : Option Snap := ss.foldl latestStep none

/-! ## Association list and list-splitting helpers -/

theorem alookup_aupsert {κ β : Type} [DecidableEq κ] (k : κ) (v : β) (l : List (κ × β)) :
    alookup k (aupsert k v l) = some v := by
  induction l with
  | nil => simp [alookup, aupsert]
  | cons p rest ih =>
    obtain ⟨k', v'⟩ := p
    by_cases hk : k = k'
    · simp [alookup, aupsert, hk]
    · simp [alookup, aupsert, hk, ih]

theorem alookup_aupsert_ne {κ β : Type} [DecidableEq κ] (k k' : κ) (v : β)
    (l : List (κ × β)) (hne : k' ≠ k) : alookup k' (aupsert k v l) = alookup k' l := by
  induction l with
  | nil => simp [alookup, aupsert, hne]
  | cons p rest ih =>
    obtain ⟨k'', v''⟩ := p
    by_cases hk : k = k''
    · subst hk
      simp [alookup, aupsert, hne]
    · by_cases hk' : k' = k''
      · simp [alookup, aupsert, hk, hk']
      · simp [alookup, aupsert, hk, hk', ih]

theorem alookup_cons {κ β : Type} [DecidableEq κ] (k k' : κ) (v' : β) (l : List (κ × β)) :
    alookup k ((k', v') :: l) = if k = k' then some v' else alookup k l := rfl

theorem alookup_append_right {κ β : Type} [DecidableEq κ] (k : κ) (v : β) (l : List (κ × β))
    (h : alookup k l = none) : alookup k (l ++ [(k, v)]) = some v := by
  induction l with
  | nil => simp [alookup]
  | cons p rest ih =>
    obtain ⟨k', v'⟩ := p
    rw [alookup_cons] at h
    rw [List.cons_append, alookup_cons]
    by_cases hk : k = k'
    · simp [hk] at h
    · rw [if_neg hk] at h ⊢
      exact ih h

theorem alookup_append_ne {κ β : Type} [DecidableEq κ] (k k' : κ) (v : β) (l : List (κ × β))
    (hne : k' ≠ k) : alookup k' (l ++ [(k, v)]) = alookup k' l := by
  induction l with
  | nil => simp [alookup, hne]
  | cons p rest ih =>
    obtain ⟨k'', v''⟩ := p
    by_cases hk : k' = k''
    · simp [alookup, hk]
    · simp only [List.cons_append, alookup, hk, if_false]
      exact ih

/-- Splitting a list at a separator occurring in neither prefix: the
prefixes agree. -/
theorem append_sep_inj {x : Nat} : ∀ (l1 l2 r1 r2 : Bytes), x ∉ l1 → x ∉ l2 →
    l1 ++ x :: r1 = l2 ++ x :: r2 → l1 = l2 := by
  intro l1
  induction l1 with
  | nil =>
    intro l2 r1 r2 _ hx2 heq
    cases l2 with
    | nil => rfl
    | cons c l2' =>
      simp only [List.nil_append, List.cons_append, List.cons.injEq] at heq
      exact absurd (heq.1 ▸ List.mem_cons_self c l2') hx2
  | cons c l1' ih =>
    intro l2 r1 r2 hx1 hx2 heq
    cases l2 with
    | nil =>
      simp only [List.cons_append, List.nil_append, List.cons.injEq] at heq
      exact absurd (heq.1 ▸ List.mem_cons_self c l1') hx1
    | cons d l2' =>
      simp only [List.cons_append, List.cons.injEq] at heq
      have := ih l2' r1 r2 (fun h => hx1 (List.mem_cons_of_mem c h))
        (fun h => hx2 (List.mem_cons_of_mem d h)) heq.2
      rw [heq.1, this]

/-! ## C10 -/

/-- C10: for distinct heights `h1 ≠ h2` (both `uint64` values),
`blockFilename` maps them to distinct file paths: the shard directories
coincide exactly when `h1 / 1000 = h2 / 1000`, and the file names always
differ, so `SaveBlock` calls at different heights never touch the same
file. -/
theorem blockFilename_separates (h1 h2 : Nat) (hw1 : h1 < 2 ^ 64) (hw2 : h2 < 2 ^ 64)
    (hne : h1 ≠ h2) :
    (blockFilename h1).2 ≠ (blockFilename h2).2 ∧
    ((blockFilename h1).1 = (blockFilename h2).1 ↔ h1 / 1000 = h2 / 1000) ∧
    blockFilename h1 ≠ blockFilename h2 := by
  have hbig : (2 : Nat) ^ 64 < 10 ^ 26 := by norm_num
  have hfn : goItoa h1 ≠ goItoa h2 := by
    intro h
    exact hne (goItoa_injOn (by omega) (by omega) h)
  refine ⟨hfn, ⟨?_, ?_⟩, ?_⟩
  · intro hdir
    simp only [blockFilename] at hdir
    have hpre := append_sep_inj (goItoa (h1 / 1000 * 1000)) (goItoa (h2 / 1000 * 1000)) _ _
      (dash_not_mem_goItoa _) (dash_not_mem_goItoa _) hdir
    have hb1 : h1 / 1000 * 1000 < 10 ^ 26 := by
      have : h1 / 1000 * 1000 ≤ h1 := Nat.div_mul_le_self h1 1000
      omega
    have hb2 : h2 / 1000 * 1000 < 10 ^ 26 := by
      have : h2 / 1000 * 1000 ≤ h2 := Nat.div_mul_le_self h2 1000
      omega
    have := goItoa_injOn hb1 hb2 hpre
    omega
  · intro hq
    simp only [blockFilename, hq]
  · intro hfull
    exact hfn (congrArg Prod.snd hfull)

/-- C10 witness at heights 1 and 1000. -/
theorem blockFilename_separates_witness :
    ((1 : Nat) < 2 ^ 64 ∧ (1000 : Nat) < 2 ^ 64 ∧ (1 : Nat) ≠ 1000) ∧
    ((blockFilename 1).2 ≠ (blockFilename 1000).2 ∧
      ((blockFilename 1).1 = (blockFilename 1000).1 ↔ 1 / 1000 = 1000 / 1000) ∧
      blockFilename 1 ≠ blockFilename 1000) :=
  ⟨by omega, blockFilename_separates 1 1000 (by omega) (by omega) (by omega)⟩

/-! ## C8 -/

/-- C8: in both `get` handlers, a requested height of `0` resolves to the
current chain height and is served immediately; any explicit height
`0 < n ≤ height` is served immediately without waiting; with the `height`
parameter absent, the filesystem variant (initial `want = 0`) serves the
highest block and the bbolt variant (initial `want = 1`) behaves exactly as
`height=1`. -/
theorem getAction_resolution (n h : Nat) (hn : 0 < n) (hnh : n ≤ h) (hw : n < 2 ^ 64) :
    getAction 0 (goItoa 0) h = .immediate h ∧
    getAction 1 (goItoa 0) h = .immediate h ∧
    getAction 0 (goItoa n) h = .immediate n ∧
    getAction 1 (goItoa n) h = .immediate n ∧
    getAction 0 [] h = .immediate h ∧
    getAction 1 [] h = getAction 1 (goItoa 1) h := by
  have hne0 : goItoa 0 ≠ [] := by decide
  have hnen : goItoa n ≠ [] := by
    simp only [goItoa, ne_eq, List.reverse_eq_nil_iff]
    exact goDigitsLE_ne_nil 25 n
  have hp0 : goParseUint (goItoa 0) = some 0 := goParseUint_goItoa 0 (by norm_num)
  have hpn : goParseUint (goItoa n) = some n := goParseUint_goItoa n hw
  have hp1 : goParseUint (goItoa 1) = some 1 := goParseUint_goItoa 1 (by norm_num)
  have hn0 : ¬n = 0 := by omega
  have hngt : ¬n > h := by omega
  refine ⟨?_, ?_, ?_, ?_, ?_, ?_⟩
  · simp [getAction, hne0, hp0]
  · simp [getAction, hne0, hp0]
  · simp [getAction, hnen, hpn, hn0, hngt]
  · simp [getAction, hnen, hpn, hn0, hngt]
  · simp [getAction]
  · have hne1 : goItoa 1 ≠ [] := by decide
    simp [getAction, hne1, hp1]

/-- C8 witness at `n = 2`, `h = 3`. -/
theorem getAction_resolution_witness :
    ((0 : Nat) < 2 ∧ (2 : Nat) ≤ 3 ∧ (2 : Nat) < 2 ^ 64) ∧
    (getAction 0 (goItoa 0) 3 = .immediate 3 ∧
      getAction 1 (goItoa 0) 3 = .immediate 3 ∧
      getAction 0 (goItoa 2) 3 = .immediate 2 ∧
      getAction 1 (goItoa 2) 3 = .immediate 2 ∧
      getAction 0 [] 3 = .immediate 3 ∧
      getAction 1 [] 3 = getAction 1 (goItoa 1) 3) :=
  ⟨by omega, getAction_resolution 2 3 (by omega) (by omega) (by omega)⟩

/-! ## Step lemmas for the store operations -/

theorem fsSaveBlock_existing (b : Block) (st : FsStore) (got : Bytes)
    (h : alookup (blockFilename b.height) st.files = some got) :
    fsSaveBlock b st = if got = b.bits then .ok st else .err .conflict := by
  unfold fsSaveBlock
  rw [h]

theorem fsSaveBlock_fresh (b : Block) (st : FsStore)
    (h : alookup (blockFilename b.height) st.files = none) :
    fsSaveBlock b st = .ok ⟨st.files ++ [(blockFilename b.height, b.bits)], st.height⟩ := by
  unfold fsSaveBlock
  rw [h]

theorem boltGetHeight_eq (r : BoltRoot) (h k : Nat) (huv : uvarint r.height = some (h, k)) :
    boltGetHeight r = .ok h := by
  unfold boltGetHeight
  rw [huv]

theorem boltGetHeight_ok (r : BoltRoot) (h0 : Nat) (hget : boltGetHeight r = .ok h0) :
    ∃ k0, uvarint r.height = some (h0, k0) := by
  unfold boltGetHeight at hget
  cases huv : uvarint r.height with
  | some p =>
    obtain ⟨h', k'⟩ := p
    rw [huv] at hget
    simp only [Res.ok.injEq] at hget
    subst hget
    exact ⟨k', rfl⟩
  | none =>
    rw [huv] at hget
    exact absurd hget (by simp)

theorem boltSaveBlock_existing (r : BoltRoot) (b : Block) (h0 k0 : Nat)
    (blocks : List (Bytes × BEntry)) (bu : BEntry)
    (huv : uvarint r.height = some (h0, k0)) (hbl : r.blocks = some blocks)
    (hlk : alookup (putUvarint b.height) blocks = some bu) (hne : bu.block ≠ []) :
    boltSaveBlock r b = if b.bits = bu.block then .ok r else .err .conflict := by
  unfold boltSaveBlock
  rw [boltGetHeight_eq r h0 k0 huv, hbl]
  simp only [hlk, Option.getD_some, ne_eq, hne, not_false_eq_true, if_true]

theorem boltSaveBlock_fresh (r : BoltRoot) (b : Block) (h0 k0 : Nat)
    (blocks : List (Bytes × BEntry)) (bu : BEntry)
    (huv : uvarint r.height = some (h0, k0)) (hbl : r.blocks = some blocks)
    (hlk : (alookup (putUvarint b.height) blocks).getD ⟨[], []⟩ = bu)
    (hemp : bu.block = []) :
    boltSaveBlock r b =
      if b.height > h0 then
        .ok ⟨putUvarint b.height,
          some (aupsert (putUvarint b.height) ⟨b.bits, bu.snapshot⟩ blocks), r.latest⟩
      else
        .ok ⟨r.height,
          some (aupsert (putUvarint b.height) ⟨b.bits, bu.snapshot⟩ blocks), r.latest⟩ := by
  unfold boltSaveBlock
  rw [boltGetHeight_eq r h0 k0 huv, hbl]
  simp only [hlk, hemp, ne_eq, not_true_eq_false, if_false]

/-! ## C1 -/

/-- C1: on both backends, once `SaveBlock b` has succeeded, saving the same
serialized bytes at the same height again succeeds and changes nothing
(exactly one copy remains stored, in the single slot for that height), while
saving different bytes at the same height fails with a conflict error (and,
the error rolling back / writing nothing, leaves the stored state
unchanged).  `b.bits ≠ []` reflects that a serialized block is never the
empty string; `b.height < 2 ^ 64` that heights are `uint64` values. -/
theorem saveBlock_idempotent_and_conflict
    (fst fst1 : FsStore) (bst bst1 : BoltRoot) (b b' : Block)
    (hh : b'.height = b.height) (hbits : b'.bits ≠ b.bits) (hnn : b.bits ≠ [])
    (hw : b.height < 2 ^ 64)
    (hf : fsSaveBlock b fst = .ok fst1) (hb : boltSaveBlock bst b = .ok bst1) :
    fsSaveBlock b fst1 = .ok fst1 ∧
    alookup (blockFilename b.height) fst1.files = some b.bits ∧
    fsSaveBlock b' fst1 = .err .conflict ∧
    boltSaveBlock bst1 b = .ok bst1 ∧
    (∃ blocks1 e, bst1.blocks = some blocks1 ∧
      alookup (putUvarint b.height) blocks1 = some e ∧ e.block = b.bits) ∧
    boltSaveBlock bst1 b' = .err .conflict := by
  -- Filesystem: after a successful save the block file holds `b.bits`.
  have hfpath : alookup (blockFilename b.height) fst1.files = some b.bits := by
    cases hlk : alookup (blockFilename b.height) fst.files with
    | some got =>
      rw [fsSaveBlock_existing b fst got hlk] at hf
      by_cases hg : got = b.bits
      · subst hg
        rw [if_pos rfl] at hf
        injection hf with hf1
        rw [← hf1]
        exact hlk
      · rw [if_neg hg] at hf
        exact absurd hf (by simp)
    | none =>
      rw [fsSaveBlock_fresh b fst hlk] at hf
      injection hf with hf1
      rw [← hf1]
      exact alookup_append_right _ _ _ hlk
  -- bbolt: after a successful save the per-height bucket holds `b.bits`
  -- and the height pointer still decodes.
  obtain ⟨h0, k0, huv0⟩ : ∃ h0 k0, uvarint bst.height = some (h0, k0) := by
    unfold boltSaveBlock at hb
    cases huv : uvarint bst.height with
    | some p =>
      obtain ⟨hh0, kk0⟩ := p
      exact ⟨hh0, kk0, rfl⟩
    | none =>
      rw [show boltGetHeight bst = .err .parseErr from by unfold boltGetHeight; rw [huv]] at hb
      exact absurd hb (by simp)
  obtain ⟨blocks1, e, hblocks1, hentry, heb, hv, kv, huv1⟩ :
      ∃ blocks1 e, bst1.blocks = some blocks1 ∧
        alookup (putUvarint b.height) blocks1 = some e ∧ e.block = b.bits ∧
        ∃ hv kv, uvarint bst1.height = some (hv, kv) := by
    cases hbl : bst.blocks with
    | none =>
      unfold boltSaveBlock at hb
      rw [boltGetHeight_eq bst h0 k0 huv0, hbl] at hb
      exact absurd hb (by simp)
    | some blocks =>
      cases hlk : alookup (putUvarint b.height) blocks with
      | some bu =>
        by_cases hbu : bu.block = []
        · rw [boltSaveBlock_fresh bst b h0 k0 blocks bu huv0 hbl (by rw [hlk]; rfl) hbu] at hb
          by_cases hadv : b.height > h0
          · rw [if_pos hadv] at hb
            injection hb with hb1
            refine ⟨aupsert (putUvarint b.height) ⟨b.bits, bu.snapshot⟩ blocks,
              ⟨b.bits, bu.snapshot⟩, by rw [← hb1], alookup_aupsert _ _ _, rfl,
              b.height, (putUvarint b.height).length, ?_⟩
            rw [← hb1]
            exact uvarint_putUvarint b.height hw
          · rw [if_neg hadv] at hb
            injection hb with hb1
            exact ⟨aupsert (putUvarint b.height) ⟨b.bits, bu.snapshot⟩ blocks,
              ⟨b.bits, bu.snapshot⟩, by rw [← hb1], alookup_aupsert _ _ _, rfl,
              h0, k0, by rw [← hb1]; exact huv0⟩
        · rw [boltSaveBlock_existing bst b h0 k0 blocks bu huv0 hbl hlk hbu] at hb
          by_cases hbb : b.bits = bu.block
          · rw [if_pos hbb] at hb
            injection hb with hb1
            exact ⟨blocks, bu, by rw [← hb1]; exact hbl, hlk, hbb.symm,
              h0, k0, by rw [← hb1]; exact huv0⟩
          · rw [if_neg hbb] at hb
            exact absurd hb (by simp)
      | none =>
        rw [boltSaveBlock_fresh bst b h0 k0 blocks ⟨[], []⟩ huv0 hbl (by rw [hlk]; rfl) rfl] at hb
        by_cases hadv : b.height > h0
        · rw [if_pos hadv] at hb
          injection hb with hb1
          refine ⟨aupsert (putUvarint b.height) ⟨b.bits, []⟩ blocks,
            ⟨b.bits, []⟩, by rw [← hb1], alookup_aupsert _ _ _, rfl,
            b.height, (putUvarint b.height).length, ?_⟩
          rw [← hb1]
          exact uvarint_putUvarint b.height hw
        · rw [if_neg hadv] at hb
          injection hb with hb1
          exact ⟨aupsert (putUvarint b.height) ⟨b.bits, []⟩ blocks,
            ⟨b.bits, []⟩, by rw [← hb1], alookup_aupsert _ _ _, rfl,
            h0, k0, by rw [← hb1]; exact huv0⟩
  have hebne : e.block ≠ [] := by rw [heb]; exact hnn
  refine ⟨?_, hfpath, ?_, ?_, ⟨blocks1, e, hblocks1, hentry, heb⟩, ?_⟩
  · rw [fsSaveBlock_existing b fst1 b.bits hfpath, if_pos rfl]
  · have hfpath' : alookup (blockFilename b'.height) fst1.files = some b.bits := by
      rw [hh]
      exact hfpath
    rw [fsSaveBlock_existing b' fst1 b.bits hfpath']
    rw [if_neg (fun hc : b.bits = b'.bits => hbits hc.symm)]
  · rw [boltSaveBlock_existing bst1 b hv kv blocks1 e huv1 hblocks1 hentry hebne,
      if_pos heb.symm]
  · rw [boltSaveBlock_existing bst1 b' hv kv blocks1 e huv1 hblocks1 (by rw [hh]; exact hentry)
      hebne]
    rw [if_neg (fun hc : b'.bits = e.block => hbits (by rw [hc, heb]))]

/-- C1 witness: a fresh filesystem store and a freshly initialized bbolt
store, with two conflicting blocks at height 2. -/
theorem saveBlock_idempotent_and_conflict_witness :
    ((Block.mk 2 [7]).height = (Block.mk 2 [5, 5]).height ∧
      (Block.mk 2 [7]).bits ≠ (Block.mk 2 [5, 5]).bits ∧
      (Block.mk 2 [5, 5]).bits ≠ [] ∧ (Block.mk 2 [5, 5]).height < 2 ^ 64 ∧
      fsSaveBlock ⟨2, [5, 5]⟩ ⟨[], 0⟩ = .ok ⟨[(blockFilename 2, [5, 5])], 0⟩ ∧
      boltSaveBlock (boltInit [9]) ⟨2, [5, 5]⟩ =
        .ok ⟨putUvarint 2,
          some [(putUvarint 1, ⟨[9], []⟩), (putUvarint 2, ⟨[5, 5], []⟩)], []⟩) ∧
    (fsSaveBlock ⟨2, [5, 5]⟩ ⟨[(blockFilename 2, [5, 5])], 0⟩ =
        .ok ⟨[(blockFilename 2, [5, 5])], 0⟩ ∧
      alookup (blockFilename (Block.mk 2 [5, 5]).height)
        (FsStore.mk [(blockFilename 2, [5, 5])] 0).files = some [5, 5] ∧
      fsSaveBlock ⟨2, [7]⟩ ⟨[(blockFilename 2, [5, 5])], 0⟩ = .err .conflict ∧
      boltSaveBlock ⟨putUvarint 2,
          some [(putUvarint 1, ⟨[9], []⟩), (putUvarint 2, ⟨[5, 5], []⟩)], []⟩ ⟨2, [5, 5]⟩ =
        .ok ⟨putUvarint 2,
          some [(putUvarint 1, ⟨[9], []⟩), (putUvarint 2, ⟨[5, 5], []⟩)], []⟩ ∧
      (∃ blocks1 e, (BoltRoot.mk (putUvarint 2)
          (some [(putUvarint 1, ⟨[9], []⟩), (putUvarint 2, ⟨[5, 5], []⟩)]) []).blocks =
            some blocks1 ∧
        alookup (putUvarint (Block.mk 2 [5, 5]).height) blocks1 = some e ∧
        e.block = (Block.mk 2 [5, 5]).bits) ∧
      boltSaveBlock ⟨putUvarint 2,
          some [(putUvarint 1, ⟨[9], []⟩), (putUvarint 2, ⟨[5, 5], []⟩)], []⟩ ⟨2, [7]⟩ =
        .err .conflict) :=
  ⟨⟨rfl, by decide, by decide, by decide, by decide, by decide⟩,
    saveBlock_idempotent_and_conflict ⟨[], 0⟩ ⟨[(blockFilename 2, [5, 5])], 0⟩
      (boltInit [9])
      ⟨putUvarint 2, some [(putUvarint 1, ⟨[9], []⟩), (putUvarint 2, ⟨[5, 5], []⟩)], []⟩
      ⟨2, [5, 5]⟩ ⟨2, [7]⟩ rfl (by decide) (by decide) (by decide) (by decide) (by decide)⟩

/-! ## C3 -/

/-- C3 counterexample: on the filesystem backend, a successful `SaveBlock`
of a block whose height (1) exceeds the store's height pointer (0) leaves
the pointer at 0, not 1: the filesystem `SaveBlock` never touches the
in-memory height field. -/
theorem fsSaveBlock_no_advance_cex :
    fsSaveBlock ⟨1, [7]⟩ ⟨[], 0⟩ = .ok ⟨[(blockFilename 1, [7])], 0⟩ ∧
    (Block.mk 1 [7]).height > fsHeight ⟨[], 0⟩ ∧
    fsHeight ⟨[(blockFilename 1, [7])], 0⟩ = 0 ∧
    fsHeight ⟨[(blockFilename 1, [7])], 0⟩ ≠ (Block.mk 1 [7]).height := by
  refine ⟨by decide, by decide, rfl, by decide⟩

/-- C3 amended: for the embedded bbolt backend, a `SaveBlock` that stores a
block at a previously unoccupied height advances the height pointer to the
block's height exactly when it exceeds the current pointer, and leaves the
pointer bytes untouched otherwise; the filesystem backend's in-memory height
pointer is never changed by any `SaveBlock` call. -/
theorem saveBlock_height_pointer
    (bst bst1 : BoltRoot) (b : Block) (h0 : Nat) (blocks : List (Bytes × BEntry))
    (fst fst1 : FsStore) (bf : Block)
    (hget : boltGetHeight bst = .ok h0)
    (hbl : bst.blocks = some blocks)
    (hfresh : ((alookup (putUvarint b.height) blocks).getD ⟨[], []⟩).block = [])
    (hw : b.height < 2 ^ 64)
    (hb : boltSaveBlock bst b = .ok bst1)
    (hf : fsSaveBlock bf fst = .ok fst1) :
    (h0 < b.height → boltGetHeight bst1 = .ok b.height) ∧
    (b.height ≤ h0 → bst1.height = bst.height) ∧
    fst1.height = fst.height := by
  obtain ⟨k0, huv0⟩ := boltGetHeight_ok bst h0 hget
  rw [boltSaveBlock_fresh bst b h0 k0 blocks _ huv0 hbl rfl hfresh] at hb
  have hfs : fst1.height = fst.height := by
    cases hlk : alookup (blockFilename bf.height) fst.files with
    | some got =>
      rw [fsSaveBlock_existing bf fst got hlk] at hf
      by_cases hg : got = bf.bits
      · rw [if_pos hg] at hf
        injection hf with hf1
        rw [← hf1]
      · rw [if_neg hg] at hf
        exact absurd hf (by simp)
    | none =>
      rw [fsSaveBlock_fresh bf fst hlk] at hf
      injection hf with hf1
      rw [← hf1]
  by_cases hadv : b.height > h0
  · rw [if_pos hadv] at hb
    injection hb with hb1
    refine ⟨fun _ => ?_, fun hle => absurd hadv (by omega), hfs⟩
    have : bst1.height = putUvarint b.height := by rw [← hb1]
    unfold boltGetHeight
    rw [this, uvarint_putUvarint b.height hw]
  · rw [if_neg hadv] at hb
    injection hb with hb1
    exact ⟨fun hlt => absurd hlt (by omega), fun _ => by rw [← hb1], hfs⟩

/-- C3 witness: bbolt store right after initialization (pointer 1), saving
a fresh block at height 2; filesystem store saving a block at height 1. -/
theorem saveBlock_height_pointer_witness :
    (boltGetHeight (boltInit [9]) = .ok 1 ∧
      (boltInit [9]).blocks = some [(putUvarint 1, ⟨[9], []⟩)] ∧
      ((alookup (putUvarint (Block.mk 2 [5]).height)
        ([(putUvarint 1, ⟨[9], []⟩)] : List (Bytes × BEntry))).getD ⟨[], []⟩).block = [] ∧
      (Block.mk 2 [5]).height < 2 ^ 64 ∧
      boltSaveBlock (boltInit [9]) ⟨2, [5]⟩ =
        .ok ⟨putUvarint 2,
          some [(putUvarint 1, ⟨[9], []⟩), (putUvarint 2, ⟨[5], []⟩)], []⟩ ∧
      fsSaveBlock ⟨1, [7]⟩ ⟨[], 0⟩ = .ok ⟨[(blockFilename 1, [7])], 0⟩) ∧
    ((1 < (Block.mk 2 [5]).height →
        boltGetHeight ⟨putUvarint 2,
          some [(putUvarint 1, ⟨[9], []⟩), (putUvarint 2, ⟨[5], []⟩)], []⟩ =
          .ok (Block.mk 2 [5]).height) ∧
      ((Block.mk 2 [5]).height ≤ 1 →
        (BoltRoot.mk (putUvarint 2)
          (some [(putUvarint 1, ⟨[9], []⟩), (putUvarint 2, ⟨[5], []⟩)]) []).height =
          (boltInit [9]).height) ∧
      (FsStore.mk [(blockFilename 1, [7])] 0).height = (FsStore.mk [] 0).height) :=
  ⟨⟨by decide, rfl, by decide, by decide, by decide, by decide⟩,
    saveBlock_height_pointer (boltInit [9])
      ⟨putUvarint 2, some [(putUvarint 1, ⟨[9], []⟩), (putUvarint 2, ⟨[5], []⟩)], []⟩
      ⟨2, [5]⟩ 1 [(putUvarint 1, ⟨[9], []⟩)] ⟨[], 0⟩ ⟨[(blockFilename 1, [7])], 0⟩
      ⟨1, [7]⟩ (by decide) rfl (by decide) (by decide) (by decide) (by decide)⟩

/-! ## C7 -/

theorem boltSaveBlock_height_mono (r : BoltRoot) (b : Block) (h0 k0 : Nat)
    (huv : uvarint r.height = some (h0, k0)) (hw : b.height < 2 ^ 64) :
    ∃ h1 k1, uvarint ((boltSaveBlock r b).stateD r).height = some (h1, k1) ∧ h0 ≤ h1 := by
  cases hbl : r.blocks with
  | none =>
    have : boltSaveBlock r b = .panic := by
      unfold boltSaveBlock
      rw [boltGetHeight_eq r h0 k0 huv, hbl]
    rw [this]
    exact ⟨h0, k0, huv, le_refl h0⟩
  | some blocks =>
    by_cases hbu : ((alookup (putUvarint b.height) blocks).getD ⟨[], []⟩).block = []
    · rw [boltSaveBlock_fresh r b h0 k0 blocks _ huv hbl rfl hbu]
      by_cases hadv : b.height > h0
      · rw [if_pos hadv]
        exact ⟨b.height, (putUvarint b.height).length,
          uvarint_putUvarint b.height hw, by omega⟩
      · rw [if_neg hadv]
        exact ⟨h0, k0, huv, le_refl h0⟩
    · cases hlk : alookup (putUvarint b.height) blocks with
      | none => rw [hlk] at hbu; exact absurd rfl hbu
      | some bu =>
        rw [hlk] at hbu
        rw [boltSaveBlock_existing r b h0 k0 blocks bu huv hbl hlk hbu]
        by_cases hbb : b.bits = bu.block
        · rw [if_pos hbb]
          exact ⟨h0, k0, huv, le_refl h0⟩
        · rw [if_neg hbb]
          exact ⟨h0, k0, huv, le_refl h0⟩

theorem fsSaveBlock_height_const (b : Block) (st : FsStore) :
    ((fsSaveBlock b st).stateD st).height = st.height := by
  cases hlk : alookup (blockFilename b.height) st.files with
  | some got =>
    rw [fsSaveBlock_existing b st got hlk]
    by_cases hg : got = b.bits
    · rw [if_pos hg]
      rfl
    · rw [if_neg hg]
      rfl
  | none =>
    rw [fsSaveBlock_fresh b st hlk]
    rfl

theorem boltRunBlocks_height_mono (bs : List Block) : ∀ (r : BoltRoot) (h0 k0 : Nat),
    uvarint r.height = some (h0, k0) → (∀ b ∈ bs, b.height < 2 ^ 64) →
    ∃ h1 k1, uvarint (boltRunBlocks r bs).height = some (h1, k1) ∧ h0 ≤ h1 := by
  induction bs with
  | nil =>
    intro r h0 k0 huv _
    exact ⟨h0, k0, huv, le_refl h0⟩
  | cons b rest ih =>
    intro r h0 k0 huv hwf
    obtain ⟨h1, k1, huv1, hle1⟩ := boltSaveBlock_height_mono r b h0 k0 huv
      (hwf b (List.mem_cons_self b rest))
    obtain ⟨h2, k2, huv2, hle2⟩ := ih ((boltSaveBlock r b).stateD r) h1 k1 huv1
      (fun x hx => hwf x (List.mem_cons_of_mem b hx))
    exact ⟨h2, k2, huv2, le_trans hle1 hle2⟩

theorem fsRunBlocks_height_const (bs : List Block) : ∀ st : FsStore,
    fsHeight (fsRunBlocks st bs) = fsHeight st := by
  induction bs with
  | nil =>
    intro st
    rfl
  | cons b rest ih =>
    intro st
    show fsHeight (fsRunBlocks ((fsSaveBlock b st).stateD st) rest) = fsHeight st
    rw [ih ((fsSaveBlock b st).stateD st)]
    exact fsSaveBlock_height_const b st

/-- C7: on both backends, `Height()` never decreases across any sequence of
`SaveBlock` calls (successful or failed): the bbolt height pointer can only
grow, and the filesystem in-memory height never changes at all. -/
theorem height_monotone_over_saveBlocks (bs : List Block) (r : BoltRoot) (st : FsStore)
    (h0 : Nat) (hh : boltHeight r = .ok h0) (hwf : ∀ b ∈ bs, b.height < 2 ^ 64) :
    (∃ h1, boltHeight (boltRunBlocks r bs) = .ok h1 ∧ h0 ≤ h1) ∧
    fsHeight (fsRunBlocks st bs) = fsHeight st := by
  constructor
  · obtain ⟨k0, huv0⟩ := boltGetHeight_ok r h0 hh
    obtain ⟨h1, k1, huv1, hle1⟩ := boltRunBlocks_height_mono bs r h0 k0 huv0 hwf
    exact ⟨h1, boltGetHeight_eq _ h1 k1 huv1, hle1⟩
  · exact fsRunBlocks_height_const bs st

/-- C7 witness: the initialized bbolt store and an empty filesystem store,
with a successful save at height 2 followed by a conflicting save at
height 1. -/
theorem height_monotone_over_saveBlocks_witness :
    (boltHeight (boltInit [9]) = .ok 1 ∧
      (∀ b ∈ [Block.mk 2 [5], Block.mk 1 [6]], b.height < 2 ^ 64)) ∧
    ((∃ h1, boltHeight (boltRunBlocks (boltInit [9]) [⟨2, [5]⟩, ⟨1, [6]⟩]) = .ok h1 ∧
        1 ≤ h1) ∧
      fsHeight (fsRunBlocks ⟨[], 0⟩ [⟨2, [5]⟩, ⟨1, [6]⟩]) = fsHeight ⟨[], 0⟩) :=
  ⟨⟨by decide, by decide⟩,
    height_monotone_over_saveBlocks [⟨2, [5]⟩, ⟨1, [6]⟩] (boltInit [9]) ⟨[], 0⟩ 1
      (by decide) (by decide)⟩

/-! ## C2 -/

/-- C2: the filesystem height-recovery scan never finds the stored blocks.
`blockFilename` shards blocks into directories named `"<low>-<high>"`
(e.g. `"0-999"`), but the scan in `newBlockStore` parses directory names
with `strconv.Atoi`, which rejects any name containing `'-'`; so after
storing blocks at heights 1 and 2 (shard directory `"0-999"`, files `"1"`
and `"2"`), reopening the store recovers height 0 instead of the highest
stored height 2. -/
theorem fsRecovery_scan_misses_blocks :
    fsRunBlocks ⟨[], 0⟩ [⟨1, [1]⟩, ⟨2, [2]⟩] =
      ⟨[(blockFilename 1, [1]), (blockFilename 2, [2])], 0⟩ ∧
    alookup (blockFilename 2)
      ([(blockFilename 1, [1]), (blockFilename 2, [2])] :
        List ((Bytes × Bytes) × Bytes)) = some [2] ∧
    goParseUint (blockFilename 2).2 = some 2 ∧
    goAtoi (blockFilename 2).1 = none ∧
    fsHeight (fsNewBlockStore [(blockFilename 1, [1]), (blockFilename 2, [2])]) = 0 ∧
    fsHeight (fsNewBlockStore [(blockFilename 1, [1]), (blockFilename 2, [2])]) ≠ 2 := by
  refine ⟨by decide, by decide, by decide, by decide, by decide, by decide⟩

/-! ## C4 -/

/-- C4 counterexample: on the filesystem backend, `SaveSnapshot` at height 5
followed by `SaveSnapshot` at height 3 leaves the height-3 snapshot in the
single snapshot file, so `LatestSnapshot` returns the height-3 snapshot and
not the maximum-height (5) one: the filesystem `SaveSnapshot` overwrites
unconditionally, with no height comparison. -/
theorem saveSnapshot_latest_cex :
    fsRunSnaps ⟨[], 0⟩ [⟨5, [5]⟩, ⟨3, [3]⟩] =
      ⟨[((([] : Bytes), snapshotName), [3])], 0⟩ ∧
    fsLatestSnapshot
      (fun bs => if bs = [5] then some ⟨5, [5]⟩ else
        if bs = [3] then some ⟨3, [3]⟩ else none)
      ⟨[((([] : Bytes), snapshotName), [3])], 0⟩ = .ok ⟨3, [3]⟩ ∧
    (Snap.mk 3 [3]).height < (Snap.mk 5 [5]).height := by
  refine ⟨by decide, by decide, by decide⟩

theorem latestStep_zero (acc : Option Snap) (s : Snap) (h : s.height = 0) :
    latestStep acc s = acc := by
  unfold latestStep
  rw [if_pos h]

theorem latestStep_pos_none (s : Snap) (h : ¬s.height = 0) :
    latestStep none s = some s := by
  unfold latestStep
  rw [if_neg h]

theorem latestStep_pos_some (t s : Snap) (h : ¬s.height = 0) :
    latestStep (some t) s = if t.height ≤ s.height then some s else some t := by
  unfold latestStep
  rw [if_neg h]

theorem boltSaveSnapshot_step (sdec : Bytes → Option Snap) (s : Snap) (rh rlat : Bytes)
    (blocks : List (Bytes × BEntry)) (h0 k0 : Nat) (acc : Option Snap)
    (huv : uvarint rh = some (h0, k0))
    (hlat : rlat = (acc.map Snap.bits).getD [])
    (hacc : ∀ t, acc = some t → sdec t.bits = some t ∧ t.bits ≠ []) :
    ∃ blocks',
      (boltSaveSnapshot sdec s ⟨rh, some blocks, rlat⟩).stateD ⟨rh, some blocks, rlat⟩ =
        ⟨rh, some blocks', ((latestStep acc s).map Snap.bits).getD []⟩ := by
  unfold boltSaveSnapshot
  by_cases hs0 : s.height = 0
  · rw [if_pos hs0, latestStep_zero acc s hs0, ← hlat]
    exact ⟨blocks, rfl⟩
  · rw [if_neg hs0]
    rw [boltGetHeight_eq ⟨rh, some blocks, rlat⟩ h0 k0 huv]
    cases acc with
    | none =>
      have hlat' : rlat = [] := by
        rw [hlat]
        rfl
      subst hlat'
      rw [latestStep_pos_none s hs0]
      exact ⟨_, rfl⟩
    | some t =>
      obtain ⟨hdect, htne⟩ := hacc t rfl
      have hlat' : rlat = t.bits := by
        rw [hlat]
        rfl
      subst hlat'
      rw [latestStep_pos_some t s hs0]
      simp only []
      rw [if_pos htne, hdect]
      simp only []
      by_cases hcmp : t.height ≤ s.height
      · rw [if_pos hcmp, if_neg (show ¬t.height > s.height by omega)]
        exact ⟨_, rfl⟩
      · rw [if_neg hcmp, if_pos (show t.height > s.height by omega)]
        exact ⟨_, rfl⟩

theorem boltRunSnaps_latest (sdec : Bytes → Option Snap) (ss : List Snap) :
    ∀ (rh rlat : Bytes) (blocks : List (Bytes × BEntry)) (h0 k0 : Nat) (acc : Option Snap),
    (∀ s ∈ ss, sdec s.bits = some s) →
    uvarint rh = some (h0, k0) →
    rlat = (acc.map Snap.bits).getD [] →
    (∀ t, acc = some t → sdec t.bits = some t ∧ t.bits ≠ []) →
    (∀ s ∈ ss, s.bits ≠ []) →
    (boltRunSnaps sdec ⟨rh, some blocks, rlat⟩ ss).latest =
      ((ss.foldl latestStep acc).map Snap.bits).getD [] ∧
    (∀ t, ss.foldl latestStep acc = some t → sdec t.bits = some t ∧ t.bits ≠ []) := by
  induction ss with
  | nil =>
    intro rh rlat blocks h0 k0 acc _ _ hlat hacc _
    exact ⟨hlat, fun t ht => hacc t ht⟩
  | cons s rest ih =>
    intro rh rlat blocks h0 k0 acc hdec huv hlat hacc hbits
    obtain ⟨blocks', hstep⟩ := boltSaveSnapshot_step sdec s rh rlat blocks h0 k0 acc huv hlat
      hacc
    have hacc' : ∀ t, latestStep acc s = some t → sdec t.bits = some t ∧ t.bits ≠ [] := by
      intro t ht
      by_cases hs0 : s.height = 0
      · rw [latestStep_zero acc s hs0] at ht
        exact hacc t ht
      · cases acc with
        | none =>
          rw [latestStep_pos_none s hs0] at ht
          simp only [Option.some.injEq] at ht
          subst ht
          exact ⟨hdec s (List.mem_cons_self s rest), hbits s (List.mem_cons_self s rest)⟩
        | some u =>
          rw [latestStep_pos_some u s hs0] at ht
          by_cases hcmp : u.height ≤ s.height
          · rw [if_pos hcmp] at ht
            simp only [Option.some.injEq] at ht
            subst ht
            exact ⟨hdec s (List.mem_cons_self s rest), hbits s (List.mem_cons_self s rest)⟩
          · rw [if_neg hcmp] at ht
            simp only [Option.some.injEq] at ht
            subst ht
            exact hacc u rfl
    have hrun : boltRunSnaps sdec ⟨rh, some blocks, rlat⟩ (s :: rest) =
        boltRunSnaps sdec ⟨rh, some blocks', ((latestStep acc s).map Snap.bits).getD []⟩
          rest := by
      show boltRunSnaps sdec
        ((boltSaveSnapshot sdec s ⟨rh, some blocks, rlat⟩).stateD ⟨rh, some blocks, rlat⟩)
        rest = _
      rw [hstep]
    rw [hrun]
    exact ih rh _ blocks' h0 k0 (latestStep acc s)
      (fun x hx => hdec x (List.mem_cons_of_mem s hx)) huv rfl hacc'
      (fun x hx => hbits x (List.mem_cons_of_mem s hx))

theorem fsRunSnaps_lastwrite (ss : List Snap) : ∀ (hne : ss ≠ []) (st : FsStore),
    alookup (([] : Bytes), snapshotName) (fsRunSnaps st ss).files =
      some (ss.getLast hne).bits := by
  induction ss with
  | nil =>
    intro hne
    exact absurd rfl hne
  | cons s rest ih =>
    cases rest with
    | nil =>
      intro hne st
      show alookup (([] : Bytes), snapshotName)
        (aupsert (([] : Bytes), snapshotName) s.bits st.files) = some s.bits
      exact alookup_aupsert _ _ _
    | cons s' rest' =>
      intro hne st
      rw [List.getLast_cons (show s' :: rest' ≠ [] by simp)]
      exact ih (by simp) ((fsSaveSnapshot s st).stateD st)

/-- C4 amended: for the embedded bbolt backend, after any sequence of
`SaveSnapshot` calls starting from the freshly initialized store,
`LatestSnapshot` returns the snapshot with the maximum nonzero height ever
passed (later calls winning ties), or the empty sentinel snapshot if no call
had nonzero height; the filesystem backend instead overwrites its single
snapshot file unconditionally, so its snapshot file always holds the bytes
of the most recent `SaveSnapshot` call.  The decoder hypotheses say that the
external serializer round-trips and that serialized snapshots are
nonempty. -/
theorem latestSnapshot_spec (sdec : Bytes → Option Snap) (ss : List Snap) (g : Bytes)
    (st : FsStore)
    (hdec : ∀ s ∈ ss, sdec s.bits = some s)
    (hbits : ∀ s ∈ ss, s.bits ≠ [])
    (hne : ss ≠ []) :
    boltLatestSnapshot sdec (boltRunSnaps sdec (boltInit g) ss) =
      .ok ((latestSpec ss).getD emptySnap) ∧
    alookup (([] : Bytes), snapshotName) (fsRunSnaps st ss).files =
      some (ss.getLast hne).bits := by
  refine ⟨?_, fsRunSnaps_lastwrite ss hne st⟩
  obtain ⟨hlat, hfin⟩ := boltRunSnaps_latest sdec ss (putUvarint 1) []
    [(putUvarint 1, ⟨g, []⟩)] 1 (putUvarint 1).length none hdec
    (uvarint_putUvarint 1 (by norm_num)) rfl (fun t ht => by cases ht) hbits
  cases hspec : ss.foldl latestStep none with
  | none =>
    rw [hspec] at hlat
    unfold boltLatestSnapshot boltInit
    rw [hlat, show latestSpec ss = none from hspec]
    rfl
  | some t =>
    rw [hspec] at hlat
    obtain ⟨hdect, htne⟩ := hfin t hspec
    unfold boltLatestSnapshot boltInit
    rw [hlat]
    rw [if_neg (show ¬((Option.map Snap.bits (some t)).getD [] = []) from htne)]
    simp only [Option.map_some', Option.getD_some]
    rw [hdect, show latestSpec ss = some t from hspec]
    rfl

/-- C4 witness: snapshots at heights 5, 3 and 0, with a decoder that decodes
exactly their serialized forms. -/
theorem latestSnapshot_spec_witness :
    ((∀ s ∈ [Snap.mk 5 [5], Snap.mk 3 [3], Snap.mk 0 [7]],
        (fun bs => if bs = [5] then some (Snap.mk 5 [5]) else
          if bs = [3] then some (Snap.mk 3 [3]) else
          if bs = [7] then some (Snap.mk 0 [7]) else none) s.bits = some s) ∧
      (∀ s ∈ [Snap.mk 5 [5], Snap.mk 3 [3], Snap.mk 0 [7]], s.bits ≠ []) ∧
      ([Snap.mk 5 [5], Snap.mk 3 [3], Snap.mk 0 [7]] : List Snap) ≠ []) ∧
    (boltLatestSnapshot
        (fun bs => if bs = [5] then some (Snap.mk 5 [5]) else
          if bs = [3] then some (Snap.mk 3 [3]) else
          if bs = [7] then some (Snap.mk 0 [7]) else none)
        (boltRunSnaps
          (fun bs => if bs = [5] then some (Snap.mk 5 [5]) else
            if bs = [3] then some (Snap.mk 3 [3]) else
            if bs = [7] then some (Snap.mk 0 [7]) else none)
          (boltInit [9]) [⟨5, [5]⟩, ⟨3, [3]⟩, ⟨0, [7]⟩]) =
      .ok ((latestSpec [⟨5, [5]⟩, ⟨3, [3]⟩, ⟨0, [7]⟩]).getD emptySnap) ∧
      alookup (([] : Bytes), snapshotName)
        (fsRunSnaps ⟨[], 0⟩ [⟨5, [5]⟩, ⟨3, [3]⟩, ⟨0, [7]⟩]).files =
        some (([Snap.mk 5 [5], Snap.mk 3 [3], Snap.mk 0 [7]].getLast (by decide)).bits)) :=
  ⟨⟨by decide, by decide, by decide⟩,
    latestSnapshot_spec
      (fun bs => if bs = [5] then some (Snap.mk 5 [5]) else
        if bs = [3] then some (Snap.mk 3 [3]) else
        if bs = [7] then some (Snap.mk 0 [7]) else none)
      [⟨5, [5]⟩, ⟨3, [3]⟩, ⟨0, [7]⟩] [9] ⟨[], 0⟩ (by decide) (by decide) (by decide)⟩

/-! ## C5 -/

/-- C5 counterexample: on the filesystem backend, `SaveSnapshot` with a
height-0 snapshot is not a no-op: it returns success but overwrites the
stored snapshot file (here replacing bytes `[5]` with `[9]`). -/
theorem fsSaveSnapshot_zero_not_noop_cex :
    (Snap.mk 0 [9]).height = 0 ∧
    fsSaveSnapshot ⟨0, [9]⟩ ⟨[((([] : Bytes), snapshotName), [5])], 0⟩ =
      .ok ⟨[((([] : Bytes), snapshotName), [9])], 0⟩ ∧
    (FsStore.mk [((([] : Bytes), snapshotName), [9])] 0) ≠
      ⟨[((([] : Bytes), snapshotName), [5])], 0⟩ := by
  refine ⟨rfl, by decide, by decide⟩

/-- C5 amended: `SaveSnapshot` with a height-0 snapshot is a no-op success
on the embedded bbolt backend only; the filesystem backend returns success
but unconditionally overwrites the snapshot file with the height-0
snapshot's bytes. -/
theorem saveSnapshot_zero (sdec : Bytes → Option Snap) (s : Snap) (r : BoltRoot)
    (st : FsStore) (hz : s.height = 0) :
    boltSaveSnapshot sdec s r = .ok r ∧
    fsSaveSnapshot s st = .ok ⟨aupsert (([] : Bytes), snapshotName) s.bits st.files, st.height⟩ ∧
    alookup (([] : Bytes), snapshotName) ((fsSaveSnapshot s st).stateD st).files =
      some s.bits := by
  refine ⟨?_, rfl, alookup_aupsert _ _ _⟩
  unfold boltSaveSnapshot
  rw [if_pos hz]

/-- C5 witness: a height-0 snapshot against the initialized bbolt store and
a filesystem store already holding a snapshot. -/
theorem saveSnapshot_zero_witness :
    (Snap.mk 0 [9]).height = 0 ∧
    (boltSaveSnapshot (fun _ => none) ⟨0, [9]⟩ (boltInit [1]) = .ok (boltInit [1]) ∧
      fsSaveSnapshot ⟨0, [9]⟩ ⟨[((([] : Bytes), snapshotName), [5])], 0⟩ =
        .ok ⟨aupsert (([] : Bytes), snapshotName) [9]
          [((([] : Bytes), snapshotName), [5])], 0⟩ ∧
      alookup (([] : Bytes), snapshotName)
        ((fsSaveSnapshot ⟨0, [9]⟩
          ⟨[((([] : Bytes), snapshotName), [5])], 0⟩).stateD
            ⟨[((([] : Bytes), snapshotName), [5])], 0⟩).files = some [9]) :=
  ⟨rfl, saveSnapshot_zero (fun _ => none) ⟨0, [9]⟩ (boltInit [1])
    ⟨[((([] : Bytes), snapshotName), [5])], 0⟩ rfl⟩

/-! ## C6 -/

/-- C6: on the embedded bbolt backend, `GetBlock` at a height with no stored
block does not return a not-found error: `blocks.Bucket(h)` returns nil for
the missing per-height bucket and the unchecked `bu.Get("block")` call
dereferences it, crashing the process (the `// xxx check` comments mark the
missing nil checks).  Concretely, on a freshly initialized store (genesis at
height 1 only), `GetBlock(2)` panics.  The filesystem backend at the same
height returns the not-found error the claim describes. -/
theorem boltGetBlock_missing_height_crashes :
    boltGetBlock (fun _ => none) (boltInit [1]) 2 = .panic ∧
    fsGetBlock (fun _ => none) ⟨[], 0⟩ 2 = .err .notFound := by
  refine ⟨by decide, by decide⟩
